import Mathlib

/-!
# Verification of the FinX SDK client layer

Shallow embedding of the request-fingerprint, request-body construction,
response-cache, batch-entry and socket-client logic of
`fiteanalytics/finx/client.py` and `fiteanalytics/finx_api.py`,
together with proofs about the embedded definitions.

Python dicts are embedded as insertion-ordered association lists,
Python scalar parameter values as an explicit `PyVal` type, and the
JSON-like socket frames as a `JVal` type.  The bounded LRU response
cache is the external `lru-dict` package (constructed as `LRU(n)` by the
clients); it is modelled from the specification of the ResponseCache
component since its implementation is not part of this repository.
-/

namespace FinXSDK

/-- Python scalar values that occur in request-parameter dictionaries:
`None`, booleans and strings.  `pyStr` is Python's `str()` on them. -/
inductive PyVal where
  | none : PyVal
  | bool : Bool → PyVal
  | str : String → PyVal
deriving DecidableEq, Repr

/-- Python `str()` on a `PyVal`. -/
def pyStr : PyVal → String
  | .none => "None"
  | .bool true => "True"
  | .bool false => "False"
  | .str s => s

/-- A Python dict in insertion order: an association list of key/value
pairs (CPython dicts preserve insertion order and have unique keys). -/
abbrev Params := List (String × PyVal)

/-- `params.get(k)`: the value of the (first) entry with key `k`. -/
def pyGet (params : Params) (k : String) : Option PyVal :=
  (params.find? (fun p => p.1 == k)).map Prod.snd

/-- `params.keys()` in insertion order. -/
def keys (params : Params) : List String := params.map Prod.fst

/-- Python string comparison on two code-point sequences: lexicographic,
a strict prefix is smaller. -/
def lexLe : List Char → List Char → Bool
  | [], _ => true
  | _ :: _, [] => false
  | a :: as, b :: bs => if a = b then lexLe as bs else decide (a < b)

/-- Python `<=` on strings (code-point lexicographic order). -/
def strLe (a b : String) : Bool := lexLe a.data b.data

/-- `strLe` as a binary relation, for use with the sorting library. -/
abbrev strLeP (a b : String) : Prop := strLe a b = true

/-- `sorted(params.keys())`: Python's `sorted` on the key list. -/
def sortedKeys (params : Params) : List String :=
  List.insertionSort strLeP (keys params)

/-- One `f'{key}:{params[key]}'` element of the joined list.  `params[k]`
cannot fail for `k` drawn from `params.keys()`, so the `getD` default is
never reached at the call sites. -/
def pairStr (params : Params) (k : String) : String :=
  k ++ ":" ++ pyStr ((pyGet params k).getD (.str ""))

/-- The `key += security_id` / `key += api_method` accumulation at the
top of `_get_cache_key`: an absent key or a `None` value is skipped
(`params.get(...) is not None`); a present value is concatenated (every
call site stores strings under these two keys). -/
def headVal (params : Params) (k : String) : String :=
  match pyGet params k with
  | Option.none => ""
  | some PyVal.none => ""
  | some v => pyStr v

/-- `_get_cache_key(params)` from `fiteanalytics/finx/client.py`:
the bare `security_id` and `api_method` values, followed by the
`','`-joined `name:value` pairs of the remaining keys in sorted order. -/
def _get_cache_key (params : Params) : String :=
  headVal params "security_id" ++ headVal params "api_method"
    ++ String.intercalate ","
      (((sortedKeys params).filter
          (fun k => k != "security_id" && k != "api_method")).map (pairStr params))

/-- `_get_cache_key(params)` from `fiteanalytics/finx_api.py`: the
`','`-joined `name:value` pairs of all keys in sorted order (no prefix,
no exclusions). -/
def getCacheKeyV1 (params : Params) : String :=
  String.intercalate "," ((sortedKeys params).map (pairStr params))

/-- `d[k] = v` on a Python dict: overwrite in place if `k` is present,
else append at the end of the insertion order. -/
def dictSet (d : Params) (k : String) (v : PyVal) : Params :=
  match d with
  | [] => [(k, v)]
  | (k', v') :: rest => if k' == k then (k', v) :: rest else (k', v') :: dictSet rest k v

/-- `d.update(kvs)` on a Python dict: `d[k] = v` for each pair in order. -/
def dictUpdate (d : Params) (kvs : Params) : Params :=
  kvs.foldl (fun acc kv => dictSet acc kv.1 kv.2) d

/-- The dict comprehension filtering the caller's keyword arguments in
`_SyncFinXClient._dispatch` and `_SocketFinXClient._dispatch`:
`{key: value for key, value in kwargs.items() if key != 'finx_api_key' and key != 'api_method'}`. -/
def filteredKwargs (kwargs : Params) : Params :=
  kwargs.filter (fun kv => kv.1 != "finx_api_key" && kv.1 != "api_method")

/-- The `request_body` built by `_SyncFinXClient._dispatch` just before
the cache key is computed: the four fixed entries, updated with the
filtered keyword arguments (`request_body.update(...)` runs only under
`if any(kwargs)`, but updating with an empty dict is the identity), then
`use_kalotay_analytics = False` forced for `security_analytics`. -/
def requestBody (apiKey apiMethod : String) (kwargs : Params) : Params :=
  let base : Params :=
    [("finx_api_key", .str apiKey), ("api_method", .str apiMethod),
     ("input_file", .none), ("output_file", .none)]
  let merged := dictUpdate base (filteredKwargs kwargs)
  if apiMethod == "security_analytics"
  then dictSet merged "use_kalotay_analytics" (.bool false)
  else merged

/-- The `payload` built by the non-batch branch of
`_SocketFinXClient._dispatch` just before the cache key is computed:
`{'api_method': api_method}` updated with the filtered keyword arguments,
then `use_kalotay_analytics = False` forced for `security_analytics`,
then `payload.update(input_file=None, output_file=None)`.  The caller's
`callback` entry has already been removed by `kwargs.pop('callback', None)`. -/
def socketPayload (apiMethod : String) (kwargs : Params) : Params :=
  let base : Params := [("api_method", .str apiMethod)]
  let merged := dictUpdate base (filteredKwargs kwargs)
  let merged :=
    if apiMethod == "security_analytics"
    then dictSet merged "use_kalotay_analytics" (.bool false)
    else merged
  dictUpdate merged [("input_file", .none), ("output_file", .none)]

/-- The body actually POSTed by `_SyncFinXClient._dispatch` on a cache
miss: the request body after the (re-)assignment
`request_body['finx_api_key'] = self.__api_key`. -/
def syncSentBody (apiKey apiMethod : String) (kwargs : Params) : Params :=
  dictSet (requestBody apiKey apiMethod kwargs) "finx_api_key" (.str apiKey)

/-- Two dicts are observably equal: same key multiset, same lookups. -/
def DictEquiv (d1 d2 : Params) : Prop :=
  (keys d1).Perm (keys d2) ∧ ∀ a, pyGet d1 a = pyGet d2 a

/-- The cache key computed by `_SyncFinXClient._dispatch`. -/
def dispatchCacheKey (apiKey apiMethod : String) (kwargs : Params) : String :=
  _get_cache_key (requestBody apiKey apiMethod kwargs)

/-- Modelled from the spec: the response cache of every client variant is
`LRU(n)` from the external `lru-dict` package, whose implementation is
not part of this repository.  ResponseCache contract (spec section 4.2):
bounded capacity; `get` returns the stored value and counts as a use for
recency; inserting a new key into a full cache evicts the
least-recently-used entry.  `entries` is kept most-recently-used first. -/
structure LRU (V : Type) where
  capacity : Nat
  entries : List (String × V)
deriving Repr, DecidableEq

/-- `LRU(n)`: a fresh empty cache of the given capacity. -/
def LRU.empty (V : Type) (capacity : Nat) : LRU V := ⟨capacity, []⟩

/-- The cached keys, most recently used first. -/
def LRU.keyList {V : Type} (c : LRU V) : List String := c.entries.map Prod.fst

/-- `cache.get(k)`: the stored value (if any) together with the cache
after the access (a hit moves the entry to the front of the recency
order). -/
def LRU.get {V : Type} (c : LRU V) (k : String) : Option V × LRU V :=
  match c.entries.find? (fun q => q.1 == k) with
  | Option.none => (Option.none, c)
  | some q => (some q.2, ⟨c.capacity, q :: c.entries.eraseP (fun r => r.1 == k)⟩)

/-- `cache[k] = v`: insert or overwrite at the front of the recency
order, dropping the least-recently-used entry if the capacity would be
exceeded. -/
def LRU.put {V : Type} (c : LRU V) (k : String) (v : V) : LRU V :=
  ⟨c.capacity, ((k, v) :: c.entries.eraseP (fun q => q.1 == k)).take c.capacity⟩

/-- The decoded JSON body of an HTTP response as consulted by
`_dispatch`: the `error` field (absent on success) plus the remaining
payload, treated as opaque. -/
structure ApiResponse where
  error : Option String
  payload : String
deriving Repr, DecidableEq

/-- Result of one `_SyncFinXClient._dispatch` call: the returned value,
the cache afterwards, and whether an HTTP POST was made. -/
structure SyncDispatchOut where
  response : ApiResponse
  cache : LRU ApiResponse
  sent : Bool
deriving Repr, DecidableEq

/-- `_SyncFinXClient._dispatch(api_method, **kwargs)` with the HTTP POST
abstracted as a function `server` from the posted body to the decoded
response.  Builds the request body, consults the cache under
`_get_cache_key(request_body)` and returns the cached response on a hit;
on a miss POSTs the body (after re-assigning `finx_api_key`), returns an
error payload without caching it, and writes a successful payload into
the cache before returning it. -/
def syncDispatch (server : Params → ApiResponse) (cache : LRU ApiResponse)
    (apiKey apiMethod : String) (kwargs : Params) : SyncDispatchOut :=
  let ck := _get_cache_key (requestBody apiKey apiMethod kwargs)
  match cache.get ck with
  | (some cached, c1) => ⟨cached, c1, false⟩
  | (Option.none, c1) =>
    let data := server (syncSentBody apiKey apiMethod kwargs)
    match data.error with
    | some _ => ⟨data, c1, true⟩
    | Option.none => ⟨data, c1.put ck data, true⟩

/-- Outcome of a batch entry point: the guard `assert` failed, or the
call went on to issue the given number of dispatches. -/
inductive BatchOutcome where
  | assertionError : BatchOutcome
  | dispatched : Nat → BatchOutcome
deriving Repr, DecidableEq

/-- `_SyncFinXClient._dispatch_batch` (the async variant has the same
guard): `assert` that the method is not `list_api_functions` and that
fewer than 100 rows were given (the executor is always present and the
list type of the input is structural here), then submit one `_dispatch`
per row.  The assertion is evaluated before any request is issued. -/
def syncDispatchBatch (apiMethod : String) (securityParams : List Params) : BatchOutcome :=
  if apiMethod ≠ "list_api_functions" ∧ securityParams.length < 100
  then .dispatched securityParams.length
  else .assertionError

/-- Python truthiness of the optional `input_file` argument. -/
def truthyFile : Option String → Bool
  | Option.none => false
  | some s => s != ""

/-- `_SocketFinXClient._dispatch_batch`: `assert` only that the method is
not `list_api_functions` and that `security_params or input_file` is
truthy (there is no row-count bound), then forward everything to
`_dispatch` with `is_batch=True`, which issues one aggregated request.
An absent or empty `security_params` list is falsy. -/
def socketDispatchBatch (batchMethod : String) (securityParams : List Params)
    (inputFile : Option String) : BatchOutcome :=
  if batchMethod ≠ "list_api_functions" ∧
      (securityParams ≠ [] ∨ truthyFile inputFile = true)
  then .dispatched 1
  else .assertionError

/-- JSON-like values carried in socket frames. -/
inductive JVal where
  | jnull : JVal
  | jbool : Bool → JVal
  | jstr : String → JVal
  | jlist : List JVal → JVal
  | jdict : List (String × JVal) → JVal

/-- Python truthiness of a frame value. -/
def truthy : JVal → Bool
  | .jnull => false
  | .jbool b => b
  | .jstr s => s != ""
  | .jlist l => !l.isEmpty
  | .jdict f => !f.isEmpty

/-- `message.get(k)` on a parsed frame. -/
def jget (fields : List (String × JVal)) (k : String) : Option JVal :=
  (fields.find? (fun p => p.1 == k)).map Prod.snd

/-- The first code-point list starts with the second. -/
def charsStart : List Char → List Char → Bool
  | [], _ => true
  | _ :: _, [] => false
  | a :: as, b :: bs => a == b && charsStart as bs

/-- `sub` occurs contiguously somewhere in the second list. -/
def charsWithin (sub : List Char) : List Char → Bool
  | [] => charsStart sub []
  | b :: rest => charsStart sub (b :: rest) || charsWithin sub rest

/-- Python `sub in s` on strings: substring test. -/
def strIn (sub s : String) : Bool := charsWithin sub.data s.data

/-- `item.get('security_id') in key` inside the generator expression of
`on_message`.  A non-dict item (`AttributeError`), or a missing, `None`
or non-string `security_id` (`TypeError` from `in` on a string), raises
and aborts the surrounding key loop. -/
def itemKeyMatch (key : String) : JVal → Except Unit Bool
  | .jdict f =>
    match jget f "security_id" with
    | some (.jstr sid) => .ok (strIn sid key)
    | _ => .error ()
  | _ => .error ()

/-- `next(item for item in data if item.get('security_id') in key)`: the
first matching item; `StopIteration` when no item matches; any exception
from the predicate propagated. -/
def findItem (key : String) : List JVal → Except Unit JVal
  | [] => .error ()
  | item :: rest =>
    match itemKeyMatch key item with
    | .error _ => .error ()
    | .ok true => .ok item
    | .ok false => findItem key rest

/-- The `for key in cache_keys` loop of the list-of-dicts branch of
`on_message`: keys already cached are skipped (the `get` still touches
recency), fresh keys are filled with their matching item; an exception
aborts the loop but the writes made so far survive, because the
enclosing `try` swallows it. -/
def writeBatchKeys (items : List JVal) : LRU JVal → List String → LRU JVal
  | cache, [] => cache
  | cache, k :: rest =>
    match cache.get k with
    | (some _, c1) => writeBatchKeys items c1 rest
    | (Option.none, c1) =>
      match findItem k items with
      | .error _ => c1
      | .ok item => writeBatchKeys items (c1.put k item) rest

/-- The `for key in cache_keys` loop of the scalar branch of
`on_message`: every fresh key is filled with the whole `data` value. -/
def writeScalarKeys (data : JVal) : LRU JVal → List String → LRU JVal
  | cache, [] => cache
  | cache, k :: rest =>
    match cache.get k with
    | (some _, c1) => writeScalarKeys data c1 rest
    | (Option.none, c1) => writeScalarKeys data (c1.put k data) rest

/-- The socket-client state visible to `on_message`. -/
structure SocketState where
  is_authenticated : Bool
  cache : LRU JVal

/-- `cache_keys = message['cache_keys']` plus the `is None` early return:
`none` when the frame carries no usable key list (a `KeyError` aborts
before any write; the wire protocol carries lists of string keys). -/
def getCacheKeys (fields : List (String × JVal)) : Option (List String) :=
  match jget fields "cache_keys" with
  | some (.jlist ks) =>
    ks.mapM (fun kv => match kv with | .jstr s => some s | _ => Option.none)
  | _ => Option.none

/-- `on_message` of `_SocketFinXClient._init_socket`, for a frame already
parsed into a dict.  Follows the source line by line: authentication
acknowledgement sets the flag; an `error` value becomes the `data`
payload; otherwise `data = message.get('data', message.get('message', {}))`;
lists and progress-free dicts are cached under the frame's `cache_keys`
(list-of-dicts frames per matching item, everything else as one value);
other shapes are only printed.  Exceptions inside the loops are swallowed
by the enclosing `try`, keeping earlier writes. -/
def onMessage (st : SocketState) (fields : List (String × JVal)) : SocketState :=
  if truthy ((jget fields "is_authenticated").getD .jnull) then
    { st with is_authenticated := true }
  else
    let errorOpt : Option JVal :=
      match jget fields "error" with
      | some .jnull => Option.none
      | some e => some e
      | Option.none => Option.none
    let data : JVal :=
      match errorOpt with
      | some e => e
      | Option.none =>
        match jget fields "data" with
        | some v => v
        | Option.none =>
          match jget fields "message" with
          | some v => v
          | Option.none => .jdict []
    match data with
    | .jlist items =>
      match getCacheKeys fields with
      | Option.none => st
      | some ks =>
        match items with
        | [] => st
        | (.jdict _) :: _ => { st with cache := writeBatchKeys items st.cache ks }
        | _ :: _ => { st with cache := writeScalarKeys (.jlist items) st.cache ks }
    | .jdict f =>
      if (match jget f "progress" with
          | Option.none => true
          | some .jnull => true
          | some _ => false) then
        match getCacheKeys fields with
        | Option.none => st
        | some ks => { st with cache := writeScalarKeys (.jdict f) st.cache ks }
      else st
    | _ => st

/-- Return value of the `is_batch=False` branch of
`_SocketFinXClient._dispatch` with no callback. -/
inductive SocketResult where
  | cachedValue : JVal → SocketResult
  | handle : List String → SocketResult
  | listened : List String → SocketResult

/-- A frame written to the socket: the payload dict plus its
`cache_keys` list entry. -/
structure SentFrame where
  payload : Params
  cacheKeys : List String

/-- Result of one socket `_dispatch` call: the returned value, the frame
sent (if any), and the cache afterwards. -/
structure SocketDispatchOut where
  result : SocketResult
  sent : Option SentFrame
  cache : LRU JVal

/-- The `is_batch=False` branch of `_SocketFinXClient._dispatch` with no
callback supplied and the socket connected and authenticated; `block` is
the computed `kwargs.get('block', self.block)` value.  On a cache hit
the cached response itself is returned and nothing is sent; on a miss
the payload (with its `cache_keys` field) is sent, and the call either
enters the blocking wait `_listen_for_result(cache_keys)` (`listened`)
or returns the `cache_keys` list at once (`handle`). -/
def socketDispatch (cache : LRU JVal) (apiMethod : String) (kwargs : Params)
    (block : Bool) : SocketDispatchOut :=
  let payload := socketPayload apiMethod kwargs
  let cacheKeys := [_get_cache_key payload]
  match cache.get (_get_cache_key payload) with
  | (some cached, c1) => ⟨.cachedValue cached, Option.none, c1⟩
  | (Option.none, c1) =>
    if block then ⟨.listened cacheKeys, some ⟨payload, cacheKeys⟩, c1⟩
    else ⟨.handle cacheKeys, some ⟨payload, cacheKeys⟩, c1⟩

/-- The value read by the final `if not self.is_authenticated` check of
`_SocketFinXClient._dispatch` (and of `__FinXSocket.__dispatch` in
`finx_api.py`), given the flag value `auth t` at the t-th read: the
while loop re-reads the flag before each of at most `i` remaining 1 ms
sleeps, and one final read decides whether to raise. -/
def authLoopFinal (auth : Nat → Bool) : Nat → Nat → Bool
  | 0, t => auth (t + 1)
  | i + 1, t => if auth t then auth (t + 1) else authLoopFinal auth i (t + 1)

/-- The authentication gate at the top of the socket `_dispatch`: if the
flag is already set, proceed; otherwise poll it up to 5000 times with a
1 ms sleep between reads and raise `Client not authenticated` if it is
still unset. -/
def socketAwaitAuth (auth : Nat → Bool) : Except String Unit :=
  if auth 0 then .ok ()
  else if authLoopFinal auth 5000 1 then .ok ()
  else .error "Client not authenticated"

theorem lexLe_trans : ∀ a b c : List Char,
    lexLe a b = true → lexLe b c = true → lexLe a c = true
  | [], _, _, _, _ => rfl
  | _ :: _, [], _, hab, _ => by simp [lexLe] at hab
  | _ :: _, _ :: _, [], _, hbc => by simp [lexLe] at hbc
  | x :: as, y :: bs, z :: cs, hab, hbc => by
    simp only [lexLe] at hab hbc ⊢
    by_cases hxy : x = y
    · subst hxy
      simp only [if_pos rfl] at hab
      by_cases hxz : x = z
      · subst hxz
        simp only [if_pos rfl] at hbc ⊢
        exact lexLe_trans as bs cs hab hbc
      · simpa [hxz] using hbc
    · simp only [if_neg hxy, decide_eq_true_eq] at hab
      by_cases hyz : y = z
      · subst hyz
        simp [hxy, hab]
      · simp only [if_neg hyz, decide_eq_true_eq] at hbc
        have hlt : x < z := lt_trans hab hbc
        simp [ne_of_lt hlt, hlt]

theorem lexLe_total : ∀ a b : List Char, lexLe a b = true ∨ lexLe b a = true
  | [], _ => Or.inl rfl
  | _ :: _, [] => Or.inr rfl
  | x :: as, y :: bs => by
    by_cases hxy : x = y
    · subst hxy
      rcases lexLe_total as bs with h | h
      · exact Or.inl (by simpa [lexLe] using h)
      · exact Or.inr (by simpa [lexLe] using h)
    · rcases lt_or_gt_of_ne hxy with h | h
      · exact Or.inl (by simp [lexLe, hxy, h])
      · exact Or.inr (by simp [lexLe, Ne.symm hxy, h])

theorem lexLe_antisymm : ∀ a b : List Char,
    lexLe a b = true → lexLe b a = true → a = b
  | [], [], _, _ => rfl
  | [], _ :: _, _, hba => by simp [lexLe] at hba
  | _ :: _, [], hab, _ => by simp [lexLe] at hab
  | x :: as, y :: bs, hab, hba => by
    by_cases hxy : x = y
    · subst hxy
      simp only [lexLe, if_pos rfl] at hab hba
      exact congrArg (x :: ·) (lexLe_antisymm as bs hab hba)
    · simp only [lexLe, if_neg hxy, decide_eq_true_eq] at hab
      simp only [lexLe, if_neg (Ne.symm hxy), decide_eq_true_eq] at hba
      exact absurd hba (not_lt_of_gt hab)

instance : IsTrans String strLeP :=
  ⟨fun a b c hab hbc => lexLe_trans a.data b.data c.data hab hbc⟩

instance : IsTotal String strLeP :=
  ⟨fun a b => lexLe_total a.data b.data⟩

instance : IsAntisymm String strLeP :=
  ⟨fun a b hab hba => String.ext (lexLe_antisymm a.data b.data hab hba)⟩

/-- With unique keys, `pyGet` finds exactly the pair stored in the dict. -/
theorem pyGet_eq_some_iff {params : Params} (hnodup : (keys params).Nodup)
    {k : String} {v : PyVal} : pyGet params k = some v ↔ (k, v) ∈ params := by
  induction params with
  | nil => simp [pyGet]
  | cons p rest ih =>
    obtain ⟨k', v'⟩ := p
    simp only [keys, List.map_cons, List.nodup_cons] at hnodup
    by_cases hk : k' = k
    · subst hk
      rw [pyGet, List.find?_cons_of_pos _ (by simp)]
      simp only [Option.map_some', Option.some.injEq, List.mem_cons, Prod.mk.injEq, true_and]
      constructor
      · intro h
        exact Or.inl h.symm
      · rintro (h | h)
        · exact h.symm
        · exact absurd (List.mem_map_of_mem Prod.fst h) hnodup.1
    · rw [pyGet, List.find?_cons_of_neg _ (by simp [hk])]
      rw [← pyGet, ih hnodup.2]
      simp only [List.mem_cons, Prod.mk.injEq]
      constructor
      · exact Or.inr
      · rintro (⟨h1, h2⟩ | h)
        · exact absurd h1.symm hk
        · exact h

/-- `pyGet` misses exactly when the key is absent. -/
theorem pyGet_eq_none_iff {params : Params} {k : String} :
    pyGet params k = none ↔ k ∉ keys params := by
  rw [pyGet, Option.map_eq_none', List.find?_eq_none]
  simp only [keys, List.mem_map, not_exists]
  constructor
  · intro h p hp
    exact h p hp.1 (by simp [hp.2])
  · intro h p hp hbeq
    exact h p ⟨hp, eq_of_beq hbeq⟩

/-- Permuting a dict with unique keys does not change any lookup. -/
theorem pyGet_perm {p1 p2 : Params} (hperm : p1.Perm p2)
    (hnodup : (keys p1).Nodup) (k : String) : pyGet p1 k = pyGet p2 k := by
  have hnodup2 : (keys p2).Nodup := (hperm.map Prod.fst).nodup_iff.mp hnodup
  cases h : pyGet p1 k with
  | some v =>
    rw [(pyGet_eq_some_iff hnodup2).mpr (hperm.mem_iff.mp ((pyGet_eq_some_iff hnodup).mp h))]
  | none =>
    rw [(pyGet_eq_none_iff).mpr
      (fun hk => (pyGet_eq_none_iff).mp h (((hperm.map Prod.fst).mem_iff).mpr hk))]

/-- Two key lists that are permutations of each other sort identically. -/
theorem sortedKeys_eq {p1 p2 : Params} (hk : (keys p1).Perm (keys p2)) :
    sortedKeys p1 = sortedKeys p2 :=
  List.eq_of_perm_of_sorted
    ((List.perm_insertionSort strLeP (keys p1)).trans
      (hk.trans (List.perm_insertionSort strLeP (keys p2)).symm))
    (List.sorted_insertionSort strLeP (keys p1))
    (List.sorted_insertionSort strLeP (keys p2))

/-- Both cache-key functions depend only on the key multiset and the
lookup function of the dict. -/
theorem cacheKey_congr {p1 p2 : Params} (hk : (keys p1).Perm (keys p2))
    (hg : ∀ k, pyGet p1 k = pyGet p2 k) :
    _get_cache_key p1 = _get_cache_key p2 ∧ getCacheKeyV1 p1 = getCacheKeyV1 p2 := by
  have hs : sortedKeys p1 = sortedKeys p2 := sortedKeys_eq hk
  have hhead : ∀ s, headVal p1 s = headVal p2 s := by
    intro s
    unfold headVal
    rw [hg]
  have hpair : ∀ l : List String, l.map (pairStr p1) = l.map (pairStr p2) := by
    intro l
    refine List.map_congr_left (fun k _ => ?_)
    unfold pairStr
    rw [hg]
  refine ⟨?_, ?_⟩
  · unfold _get_cache_key
    rw [hs, hhead, hhead, hpair]
  · unfold getCacheKeyV1
    rw [hs, hpair]

theorem dictSet_cons_of_eq {k' k : String} (h : k' = k) (v' v : PyVal) (rest : Params) :
    dictSet ((k', v') :: rest) k v = (k', v) :: rest := by
  simp [dictSet, h]

theorem dictSet_cons_of_ne {k' k : String} (h : k' ≠ k) (v' v : PyVal) (rest : Params) :
    dictSet ((k', v') :: rest) k v = (k', v') :: dictSet rest k v := by
  simp [dictSet, h]

theorem pyGet_cons_self (k : String) (v' : PyVal) (rest : Params) :
    pyGet ((k, v') :: rest) k = some v' := by
  rw [pyGet, List.find?_cons_of_pos _ (by simp)]
  rfl

theorem pyGet_cons_ne {k' a : String} (h : k' ≠ a) (v' : PyVal) (rest : Params) :
    pyGet ((k', v') :: rest) a = pyGet rest a := by
  rw [pyGet, List.find?_cons_of_neg _ (by simp [h]), ← pyGet]

/-- The key list of `d[k] = v`: unchanged when `k` is present, else the
new key is appended. -/
theorem keys_dictSet (d : Params) (k : String) (v : PyVal) :
    keys (dictSet d k v) = if k ∈ keys d then keys d else keys d ++ [k] := by
  induction d with
  | nil => simp [dictSet, keys]
  | cons p rest ih =>
    obtain ⟨k', v'⟩ := p
    by_cases hk : k' = k
    · subst hk
      rw [dictSet_cons_of_eq rfl]
      simp [keys]
    · rw [dictSet_cons_of_ne hk]
      have hkk : k ≠ k' := fun h => hk h.symm
      have hcond : (k ∈ keys ((k', v') :: rest)) ↔ k ∈ keys rest := by
        simp [keys, hkk]
      by_cases hmem : k ∈ keys rest
      · rw [if_pos (hcond.mpr hmem)]
        show k' :: keys (dictSet rest k v) = keys ((k', v') :: rest)
        rw [ih, if_pos hmem]
        rfl
      · rw [if_neg (fun hc => hmem (hcond.mp hc))]
        show k' :: keys (dictSet rest k v) = keys ((k', v') :: rest) ++ [k]
        rw [ih, if_neg hmem]
        rfl

theorem keys_dictSet_nodup {d : Params} (hd : (keys d).Nodup) (k : String) (v : PyVal) :
    (keys (dictSet d k v)).Nodup := by
  rw [keys_dictSet]
  by_cases hmem : k ∈ keys d
  · rwa [if_pos hmem]
  · rw [if_neg hmem]
    refine hd.append (List.nodup_singleton k) ?_
    intro x hx hx'
    simp only [List.mem_singleton] at hx'
    subst hx'
    exact hmem hx

theorem pyGet_dictSet_self (d : Params) (k : String) (v : PyVal) :
    pyGet (dictSet d k v) k = some v := by
  induction d with
  | nil => exact pyGet_cons_self k v []
  | cons p rest ih =>
    obtain ⟨k', v'⟩ := p
    by_cases hk : k' = k
    · subst hk
      rw [dictSet_cons_of_eq rfl]
      exact pyGet_cons_self _ _ _
    · rw [dictSet_cons_of_ne hk, pyGet_cons_ne hk]
      exact ih

theorem pyGet_dictSet_ne (d : Params) {a k : String} (h : a ≠ k) (v : PyVal) :
    pyGet (dictSet d k v) a = pyGet d a := by
  induction d with
  | nil =>
    show pyGet [(k, v)] a = pyGet [] a
    rw [pyGet_cons_ne (fun hh => h hh.symm)]
  | cons p rest ih =>
    obtain ⟨k', v'⟩ := p
    by_cases hk : k' = k
    · subst hk
      rw [dictSet_cons_of_eq rfl]
      have hka : k' ≠ a := fun hh => h hh.symm
      rw [pyGet_cons_ne hka, pyGet_cons_ne hka]
    · rw [dictSet_cons_of_ne hk]
      by_cases hak : k' = a
      · subst hak
        rw [pyGet_cons_self, pyGet_cons_self]
      · rw [pyGet_cons_ne hak, pyGet_cons_ne hak]
        exact ih

theorem keys_dictUpdate_mem (d kvs : Params) (a : String) :
    a ∈ keys (dictUpdate d kvs) ↔ a ∈ keys d ∨ a ∈ keys kvs := by
  induction kvs generalizing d with
  | nil => simp [dictUpdate, keys]
  | cons p rest ih =>
    obtain ⟨k, v⟩ := p
    show a ∈ keys (dictUpdate (dictSet d k v) rest) ↔ _
    rw [ih]
    have hset : a ∈ keys (dictSet d k v) ↔ a ∈ keys d ∨ a = k := by
      rw [keys_dictSet]
      by_cases hmem : k ∈ keys d
      · rw [if_pos hmem]
        constructor
        · exact Or.inl
        · rintro (h | h)
          · exact h
          · exact h ▸ hmem
      · rw [if_neg hmem]
        simp [List.mem_append]
    rw [hset]
    simp only [keys, List.map_cons, List.mem_cons]
    tauto

theorem keys_dictUpdate_nodup {d : Params} (kvs : Params) (hd : (keys d).Nodup) :
    (keys (dictUpdate d kvs)).Nodup := by
  induction kvs generalizing d with
  | nil => exact hd
  | cons p rest ih =>
    exact ih (keys_dictSet_nodup hd p.1 p.2)

theorem pyGet_dictUpdate_of_notmem (d : Params) {kvs : Params} {a : String}
    (h : a ∉ keys kvs) : pyGet (dictUpdate d kvs) a = pyGet d a := by
  induction kvs generalizing d with
  | nil => rfl
  | cons p rest ih =>
    obtain ⟨k, v⟩ := p
    have h1 : a ≠ k := by
      intro hh
      exact h (by simp [keys, hh])
    have h2 : a ∉ keys rest := by
      intro hh
      refine h ?_
      simp only [keys, List.map_cons, List.mem_cons]
      exact Or.inr hh
    show pyGet (dictUpdate (dictSet d k v) rest) a = _
    rw [ih _ h2, pyGet_dictSet_ne _ h1]

theorem pyGet_dictUpdate_of_mem (d : Params) {kvs : Params} {a : String} {v : PyVal}
    (hnodup : (keys kvs).Nodup) (h : pyGet kvs a = some v) :
    pyGet (dictUpdate d kvs) a = some v := by
  induction kvs generalizing d with
  | nil => simp [pyGet] at h
  | cons p rest ih =>
    obtain ⟨k, v'⟩ := p
    simp only [keys, List.map_cons, List.nodup_cons] at hnodup
    by_cases hak : a = k
    · subst hak
      rw [pyGet_cons_self] at h
      obtain rfl : v' = v := by injection h
      show pyGet (dictUpdate (dictSet d a v') rest) a = some v'
      rw [pyGet_dictUpdate_of_notmem _ (by simpa [keys] using hnodup.1), pyGet_dictSet_self]
    · rw [pyGet_cons_ne (fun hh => hak hh.symm)] at h
      exact ih _ hnodup.2 h

theorem DictEquiv.ofPerm {d1 d2 : Params} (hperm : d1.Perm d2)
    (hnodup : (keys d1).Nodup) : DictEquiv d1 d2 :=
  ⟨hperm.map Prod.fst, pyGet_perm hperm hnodup⟩

theorem DictEquiv.set {d1 d2 : Params} (h : DictEquiv d1 d2) (k : String) (v : PyVal) :
    DictEquiv (dictSet d1 k v) (dictSet d2 k v) := by
  obtain ⟨hk, hg⟩ := h
  constructor
  · rw [keys_dictSet, keys_dictSet]
    by_cases hmem : k ∈ keys d1
    · rw [if_pos hmem, if_pos (hk.mem_iff.mp hmem)]
      exact hk
    · rw [if_neg hmem, if_neg (fun hc => hmem (hk.mem_iff.mpr hc))]
      exact hk.append_right [k]
  · intro a
    by_cases hak : a = k
    · subst hak
      rw [pyGet_dictSet_self, pyGet_dictSet_self]
    · rw [pyGet_dictSet_ne _ hak, pyGet_dictSet_ne _ hak]
      exact hg a

/-- Updating one dict with two permuted unique-key dicts yields observably
equal results. -/
theorem dictUpdate_congr {d kvs1 kvs2 : Params} (hd : (keys d).Nodup)
    (hnodup : (keys kvs1).Nodup) (hperm : kvs1.Perm kvs2) :
    DictEquiv (dictUpdate d kvs1) (dictUpdate d kvs2) := by
  have hkp : (keys kvs1).Perm (keys kvs2) := hperm.map Prod.fst
  have hg : ∀ a, pyGet kvs1 a = pyGet kvs2 a := pyGet_perm hperm hnodup
  constructor
  · rw [List.perm_ext_iff_of_nodup (keys_dictUpdate_nodup kvs1 hd)
      (keys_dictUpdate_nodup kvs2 hd)]
    intro a
    rw [keys_dictUpdate_mem, keys_dictUpdate_mem, hkp.mem_iff]
  · intro a
    cases h : pyGet kvs1 a with
    | some v =>
      rw [pyGet_dictUpdate_of_mem _ hnodup h,
        pyGet_dictUpdate_of_mem _ ((hkp.nodup_iff).mp hnodup) ((hg a).symm.trans h)]
    | none =>
      rw [pyGet_dictUpdate_of_notmem _ (pyGet_eq_none_iff.mp h),
        pyGet_dictUpdate_of_notmem _ (pyGet_eq_none_iff.mp ((hg a).symm.trans h))]

/-- Permuting the caller's keyword arguments leaves the request body
observably unchanged. -/
theorem requestBody_congr (apiKey apiMethod : String) {kw1 kw2 : Params}
    (hperm : kw1.Perm kw2) (hnodup : (keys kw1).Nodup) :
    DictEquiv (requestBody apiKey apiMethod kw1) (requestBody apiKey apiMethod kw2) := by
  have hpermF : (filteredKwargs kw1).Perm (filteredKwargs kw2) := hperm.filter _
  have hnodupF : (keys (filteredKwargs kw1)).Nodup :=
    hnodup.sublist ((List.filter_sublist kw1).map Prod.fst)
  have hbase : DictEquiv
      (dictUpdate [("finx_api_key", .str apiKey), ("api_method", .str apiMethod),
        ("input_file", .none), ("output_file", .none)] (filteredKwargs kw1))
      (dictUpdate [("finx_api_key", .str apiKey), ("api_method", .str apiMethod),
        ("input_file", .none), ("output_file", .none)] (filteredKwargs kw2)) :=
    dictUpdate_congr (by simp [keys]) hnodupF hpermF
  unfold requestBody
  by_cases hm : apiMethod == "security_analytics"
  · rw [if_pos hm, if_pos hm]
    exact hbase.set _ _
  · rw [if_neg hm, if_neg hm]
    exact hbase

theorem erasePKeyNe {V : Type} (k' k : String) (v : V) (t : List (String × V))
    (hne : k ≠ k') :
    List.eraseP (fun q => q.1 == k') ((k, v) :: t)
      = (k, v) :: List.eraseP (fun q => q.1 == k') t :=
  List.eraseP_cons_of_neg (fun h => hne (eq_of_beq h))

theorem LRU.get_front {V : Type} (cap : Nat) (k : String) (v : V) (tail : List (String × V)) :
    LRU.get ⟨cap, (k, v) :: tail⟩ k = (some v, ⟨cap, (k, v) :: tail⟩) := by
  unfold LRU.get
  rw [List.find?_cons_of_pos _ (by simp)]
  simp [List.eraseP_cons_of_pos (show ((k, v).1 == k) = true by simp)]

theorem LRU.get_snd_capacity {V : Type} (c : LRU V) (k : String) :
    ((c.get k).snd).capacity = c.capacity := by
  unfold LRU.get
  cases c.entries.find? (fun q => q.1 == k) <;> rfl

theorem LRU.put_capacity {V : Type} (c : LRU V) (k : String) (v : V) :
    (c.put k v).capacity = c.capacity := rfl

theorem LRU.get_fst_none {V : Type} {c : LRU V} {k : String}
    (h : (c.get k).fst = Option.none) : c.get k = (Option.none, c) := by
  cases hf : c.entries.find? (fun q => q.1 == k) with
  | none =>
    unfold LRU.get
    rw [hf]
  | some q =>
    unfold LRU.get at h
    rw [hf] at h
    simp at h

theorem LRU.get_get {V : Type} {c : LRU V} {k : String} {v : V}
    (h : (c.get k).fst = some v) : ((c.get k).snd.get k).fst = some v := by
  obtain ⟨cap, entries⟩ := c
  cases hf : entries.find? (fun q => q.1 == k) with
  | none =>
    unfold LRU.get at h
    rw [hf] at h
    simp at h
  | some q =>
    obtain ⟨qk, qv⟩ := q
    have hqk : qk = k := eq_of_beq (by simpa using List.find?_some hf)
    subst hqk
    have hget : LRU.get ⟨cap, entries⟩ qk
        = (some qv, ⟨cap, (qk, qv) :: entries.eraseP (fun r => r.1 == qk)⟩) := by
      unfold LRU.get
      rw [hf]
    rw [hget] at h
    have hqv : qv = v := by simpa using h
    subst hqv
    rw [hget]
    show ((⟨cap, (qk, qv) :: entries.eraseP (fun r => r.1 == qk)⟩ : LRU V).get qk).fst = some qv
    rw [LRU.get_front]

theorem LRU.get_put_self {V : Type} (c : LRU V) (k : String) (v : V)
    (hcap : 1 ≤ c.capacity) : ((c.put k v).get k).fst = some v := by
  obtain ⟨cap, entries⟩ := c
  have hcap' : 1 ≤ cap := hcap
  obtain ⟨n, rfl⟩ : ∃ n, cap = n + 1 := ⟨cap - 1, by omega⟩
  have hput : LRU.put ⟨n + 1, entries⟩ k v
      = ⟨n + 1, (k, v) :: (entries.eraseP (fun q => q.1 == k)).take n⟩ := by
    unfold LRU.put
    rw [List.take_succ_cons]
  rw [hput, LRU.get_front]

theorem LRU.get_put_put {V : Type} (c : LRU V) (k k' : String) (v v' : V)
    (hcap : 2 ≤ c.capacity) (hne : k' ≠ k) :
    (((c.put k v).put k' v').get k).fst = some v := by
  obtain ⟨cap, entries⟩ := c
  have hcap' : 2 ≤ cap := hcap
  obtain ⟨n, rfl⟩ : ∃ n, cap = n + 2 := ⟨cap - 2, by omega⟩
  have h1 : LRU.put ⟨n + 2, entries⟩ k v
      = ⟨n + 2, (k, v) :: (entries.eraseP (fun q => q.1 == k)).take (n + 1)⟩ := by
    unfold LRU.put
    rw [List.take_succ_cons]
  have h2 : LRU.put ⟨n + 2, (k, v) :: (entries.eraseP (fun q => q.1 == k)).take (n + 1)⟩ k' v'
      = ⟨n + 2, (k', v') :: (k, v) ::
          ((((entries.eraseP (fun q => q.1 == k)).take (n + 1)).eraseP
            (fun q => q.1 == k')).take n)⟩ := by
    unfold LRU.put
    rw [erasePKeyNe k' k v _ (fun h => hne h.symm), List.take_succ_cons, List.take_succ_cons]
  rw [h1, h2]
  unfold LRU.get
  rw [List.find?_cons_of_neg _ (by intro h; exact hne (eq_of_beq h)),
    List.find?_cons_of_pos _ (by simp)]

theorem LRU.put_full {V : Type} (c : LRU V) (k : String) (v : V)
    (hcap : 1 ≤ c.capacity) (hfull : c.entries.length = c.capacity)
    (hfresh : k ∉ c.keyList) :
    (c.put k v).entries = (k, v) :: c.entries.dropLast := by
  obtain ⟨cap, entries⟩ := c
  have hcap' : 1 ≤ cap := hcap
  have hfull' : entries.length = cap := hfull
  have hfresh' : k ∉ entries.map Prod.fst := hfresh
  obtain ⟨n, rfl⟩ : ∃ n, cap = n + 1 := ⟨cap - 1, by omega⟩
  have herase : entries.eraseP (fun q => q.1 == k) = entries := by
    refine List.eraseP_of_forall_not ?_
    intro a ha hbeq
    exact hfresh' ((eq_of_beq hbeq) ▸ List.mem_map_of_mem Prod.fst ha)
  show ((k, v) :: entries.eraseP (fun q => q.1 == k)).take (n + 1) = (k, v) :: entries.dropLast
  rw [herase, List.take_succ_cons, List.dropLast_eq_take, hfull']
  rfl

theorem LRU.get_then_put_keeps {V : Type} (c : LRU V) (k knew : String) (v vnew : V)
    (hcap : 2 ≤ c.capacity) (hget : (c.get k).fst = some v) (hne : knew ≠ k) :
    k ∈ (((c.get k).snd).put knew vnew).keyList := by
  obtain ⟨cap, entries⟩ := c
  have hcap' : 2 ≤ cap := hcap
  obtain ⟨n, rfl⟩ : ∃ n, cap = n + 2 := ⟨cap - 2, by omega⟩
  cases hf : entries.find? (fun q => q.1 == k) with
  | none =>
    unfold LRU.get at hget
    rw [hf] at hget
    simp at hget
  | some q =>
    obtain ⟨qk, qv⟩ := q
    have hqk : qk = k := eq_of_beq (by simpa using List.find?_some hf)
    subst hqk
    have hget2 : LRU.get ⟨n + 2, entries⟩ qk
        = (some qv, ⟨n + 2, (qk, qv) :: entries.eraseP (fun r => r.1 == qk)⟩) := by
      unfold LRU.get
      rw [hf]
    rw [hget2]
    have hput : LRU.put ⟨n + 2, (qk, qv) :: entries.eraseP (fun r => r.1 == qk)⟩ knew vnew
        = ⟨n + 2, (knew, vnew) :: (qk, qv) ::
            (((entries.eraseP (fun r => r.1 == qk)).eraseP (fun q => q.1 == knew)).take n)⟩ := by
      unfold LRU.put
      rw [erasePKeyNe knew qk qv _ (fun h => hne h.symm), List.take_succ_cons, List.take_succ_cons]
    rw [hput]
    show qk ∈ knew :: qk :: _
    exact List.mem_cons_of_mem _ (List.mem_cons_self _ _)

/-- C1: the fingerprint function is pure and order-independent: for any
two request parameter mappings that are permutations of each other (same
keys mapped to the same values, in any insertion order), `_get_cache_key`
(both the `finx/client.py` and the `finx_api.py` versions) returns the
same string, and repeated application to the same mapping returns the
same string. -/
theorem c1_fingerprint_order_independent (p1 p2 : Params)
    (hperm : p1.Perm p2) (hnodup : (keys p1).Nodup) :
    _get_cache_key p1 = _get_cache_key p2
    ∧ getCacheKeyV1 p1 = getCacheKeyV1 p2
    ∧ _get_cache_key p1 = _get_cache_key p1
    ∧ getCacheKeyV1 p1 = getCacheKeyV1 p1 := by
  obtain ⟨h1, h2⟩ := cacheKey_congr (hperm.map Prod.fst) (pyGet_perm hperm hnodup)
  exact ⟨h1, h2, rfl, rfl⟩

theorem c1_fingerprint_order_independent_witness :
    ([(("security_id" : String), PyVal.str "USQ98418AH10"),
        ("as_of_date", PyVal.str "2020-09-14")].Perm
      [("as_of_date", PyVal.str "2020-09-14"),
        ("security_id", PyVal.str "USQ98418AH10")])
    ∧ (keys [("security_id", PyVal.str "USQ98418AH10"),
        ("as_of_date", PyVal.str "2020-09-14")]).Nodup
    ∧ (_get_cache_key [("security_id", PyVal.str "USQ98418AH10"),
          ("as_of_date", PyVal.str "2020-09-14")]
        = _get_cache_key [("as_of_date", PyVal.str "2020-09-14"),
          ("security_id", PyVal.str "USQ98418AH10")]
      ∧ getCacheKeyV1 [("security_id", PyVal.str "USQ98418AH10"),
          ("as_of_date", PyVal.str "2020-09-14")]
        = getCacheKeyV1 [("as_of_date", PyVal.str "2020-09-14"),
          ("security_id", PyVal.str "USQ98418AH10")]
      ∧ _get_cache_key [("security_id", PyVal.str "USQ98418AH10"),
          ("as_of_date", PyVal.str "2020-09-14")]
        = _get_cache_key [("security_id", PyVal.str "USQ98418AH10"),
          ("as_of_date", PyVal.str "2020-09-14")]
      ∧ getCacheKeyV1 [("security_id", PyVal.str "USQ98418AH10"),
          ("as_of_date", PyVal.str "2020-09-14")]
        = getCacheKeyV1 [("security_id", PyVal.str "USQ98418AH10"),
          ("as_of_date", PyVal.str "2020-09-14")]) :=
  ⟨by decide, by decide,
    c1_fingerprint_order_independent _ _ (by decide) (by decide)⟩

/-- C2 counterexample: the claim says the cache key does not depend on
the `finx_api_key` credential attached to the request body; in the code
the credential sits in `request_body` when `_get_cache_key` is applied,
so two dispatches identical except for the credential value get
different cache keys. -/
theorem c2_counterexample :
    dispatchCacheKey "key_one" "security_reference"
        [("security_id", PyVal.str "USQ98418AH10")]
      ≠ dispatchCacheKey "key_two" "security_reference"
        [("security_id", PyVal.str "USQ98418AH10")] := by
  decide

/-- C2 (amended): the cache key computed by `_SyncFinXClient._dispatch`
is a pure function of the method name, the caller parameters and the
`finx_api_key` credential included in the request body; with the
credential and method fixed it is order-independent in the caller
parameters (the counterexample shows it does change with the
credential). -/
theorem c2_cache_key_fixed_credential (apiKey apiMethod : String)
    (kw1 kw2 : Params) (hperm : kw1.Perm kw2) (hnodup : (keys kw1).Nodup) :
    dispatchCacheKey apiKey apiMethod kw1 = dispatchCacheKey apiKey apiMethod kw2 := by
  obtain ⟨hk, hg⟩ := requestBody_congr apiKey apiMethod hperm hnodup
  exact (cacheKey_congr hk hg).1

theorem c2_cache_key_fixed_credential_witness :
    ([(("security_id" : String), PyVal.str "USQ98418AH10"),
        ("as_of_date", PyVal.str "2020-09-14")].Perm
      [("as_of_date", PyVal.str "2020-09-14"),
        ("security_id", PyVal.str "USQ98418AH10")])
    ∧ (keys [("security_id", PyVal.str "USQ98418AH10"),
        ("as_of_date", PyVal.str "2020-09-14")]).Nodup
    ∧ dispatchCacheKey "key_one" "security_reference"
        [("security_id", PyVal.str "USQ98418AH10"), ("as_of_date", PyVal.str "2020-09-14")]
      = dispatchCacheKey "key_one" "security_reference"
        [("as_of_date", PyVal.str "2020-09-14"), ("security_id", PyVal.str "USQ98418AH10")] :=
  ⟨by decide, by decide,
    c2_cache_key_fixed_credential _ _ _ _ (by decide) (by decide)⟩

/-- C3 counterexample: the claim says every client variant, the socket
client included, rejects a batch of 100 or more rows before any network
activity; `_SocketFinXClient._dispatch_batch` has no row-count check, so
a 101-row batch is dispatched, not rejected. -/
theorem c3_counterexample :
    socketDispatchBatch "security_analytics"
        (List.replicate 101 [("security_id", PyVal.str "USQ98418AH10")]) Option.none
      = BatchOutcome.dispatched 1
    ∧ BatchOutcome.dispatched 1 ≠ BatchOutcome.assertionError := by
  constructor
  · decide
  · intro h
    exact BatchOutcome.noConfusion h

/-- C3 (amended): the sync and async HTTP batch entry points fail their
`assert` (before submitting any request) whenever 100 or more rows are
given; the socket batch entry point performs no row-count check and
forwards any non-empty batch to a single aggregated dispatch. -/
theorem c3_batch_cap (apiMethod : String) (rows : List Params)
    (hlen : 100 ≤ rows.length) (hm : apiMethod ≠ "list_api_functions")
    (hne : rows ≠ []) :
    syncDispatchBatch apiMethod rows = BatchOutcome.assertionError
    ∧ socketDispatchBatch apiMethod rows Option.none = BatchOutcome.dispatched 1 := by
  constructor
  · unfold syncDispatchBatch
    rw [if_neg (fun h => absurd h.2 (by omega))]
  · unfold socketDispatchBatch
    rw [if_pos ⟨hm, Or.inl hne⟩]

theorem c3_batch_cap_witness :
    100 ≤ (List.replicate 101 ([("security_id", PyVal.str "USQ98418AH10")] : Params)).length
    ∧ ("security_analytics" : String) ≠ "list_api_functions"
    ∧ List.replicate 101 ([("security_id", PyVal.str "USQ98418AH10")] : Params) ≠ []
    ∧ (syncDispatchBatch "security_analytics"
          (List.replicate 101 [("security_id", PyVal.str "USQ98418AH10")])
        = BatchOutcome.assertionError
      ∧ socketDispatchBatch "security_analytics"
          (List.replicate 101 [("security_id", PyVal.str "USQ98418AH10")]) Option.none
        = BatchOutcome.dispatched 1) :=
  ⟨by decide, by decide, by decide,
    c3_batch_cap _ _ (by decide) (by decide) (by decide)⟩

/-- C9: the fingerprint function is not injective: with the same method,
the mapping `a ↦ "b,c:d"` and the mapping `a ↦ "b", c ↦ "d"` concatenate
to the same cache key because `name:value` pairs are joined with
unescaped `:` and `,`; moreover the bare concatenation of `security_id`
and `api_method` into the key head conflates `("AB", "c")` with
`("A", "Bc")`. -/
theorem c9_fingerprint_not_injective :
    _get_cache_key [("api_method", PyVal.str "security_reference"),
        ("a", PyVal.str "b,c:d")]
      = _get_cache_key [("api_method", PyVal.str "security_reference"),
        ("a", PyVal.str "b"), ("c", PyVal.str "d")]
    ∧ pyGet [("api_method", PyVal.str "security_reference"), ("a", PyVal.str "b,c:d")] "c"
      ≠ pyGet [("api_method", PyVal.str "security_reference"),
        ("a", PyVal.str "b"), ("c", PyVal.str "d")] "c"
    ∧ pyGet [("api_method", PyVal.str "security_reference"),
        ("a", PyVal.str "b,c:d")] "api_method"
      = pyGet [("api_method", PyVal.str "security_reference"),
        ("a", PyVal.str "b"), ("c", PyVal.str "d")] "api_method"
    ∧ _get_cache_key [("security_id", PyVal.str "AB"), ("api_method", PyVal.str "c")]
      = _get_cache_key [("security_id", PyVal.str "A"), ("api_method", PyVal.str "Bc")] := by
  refine ⟨by decide, by decide, by decide, by decide⟩

/-- C10: every request body built for api_method `security_analytics`
carries `use_kalotay_analytics = False` — in the sync request body, in
the body actually POSTed, and in the socket payload — because the field
is assigned after the caller's keyword arguments are merged, overriding
any caller-supplied value. -/
theorem c10_kalotay_always_false (apiKey : String) (kwargs : Params) :
    pyGet (requestBody apiKey "security_analytics" kwargs) "use_kalotay_analytics"
        = some (PyVal.bool false)
    ∧ pyGet (syncSentBody apiKey "security_analytics" kwargs) "use_kalotay_analytics"
        = some (PyVal.bool false)
    ∧ pyGet (socketPayload "security_analytics" kwargs) "use_kalotay_analytics"
        = some (PyVal.bool false) := by
  have hreq : requestBody apiKey "security_analytics" kwargs
      = dictSet (dictUpdate
          ([("finx_api_key", PyVal.str apiKey), ("api_method", PyVal.str "security_analytics"),
            ("input_file", PyVal.none), ("output_file", PyVal.none)] : Params)
          (filteredKwargs kwargs)) "use_kalotay_analytics" (PyVal.bool false) := by
    simp [requestBody]
  have h1 : pyGet (requestBody apiKey "security_analytics" kwargs) "use_kalotay_analytics"
      = some (PyVal.bool false) := by
    rw [hreq]
    exact pyGet_dictSet_self _ _ _
  have hsp : socketPayload "security_analytics" kwargs
      = dictUpdate (dictSet
          (dictUpdate ([("api_method", PyVal.str "security_analytics")] : Params)
            (filteredKwargs kwargs))
          "use_kalotay_analytics" (PyVal.bool false))
          [("input_file", PyVal.none), ("output_file", PyVal.none)] := by
    simp [socketPayload]
  refine ⟨h1, ?_, ?_⟩
  · unfold syncSentBody
    rw [pyGet_dictSet_ne _ (by decide), h1]
  · rw [hsp, pyGet_dictUpdate_of_notmem _ (by decide)]
    exact pyGet_dictSet_self _ _ _

/-- C4 (LRU modelled from the spec, the implementation being the
external `lru-dict` package): after `put(k, v)`, `get(k)` returns `v`; a
subsequent `put` of a different key (capacity at least 2) keeps it;
inserting a fresh key into a full cache evicts exactly the last
(least-recently-used) entry and no other; and `get` counts as a use, so
a key read just before the overflow insertion survives it. -/
theorem c4_lru_bounded_store (V : Type) (c cR : LRU V) (k knew kR kR' : String)
    (v vnew vR vnR : V)
    (hcap : 2 ≤ c.capacity) (hfull : c.entries.length = c.capacity)
    (hfresh : knew ∉ c.keyList) (hget : (c.get k).fst = some v) (hne2 : knew ≠ k)
    (hcapR : 2 ≤ cR.capacity) (hneR : kR' ≠ kR) :
    ((cR.put kR vR).get kR).fst = some vR
    ∧ (((cR.put kR vR).put kR' vnR).get kR).fst = some vR
    ∧ (c.put knew vnew).entries = (knew, vnew) :: c.entries.dropLast
    ∧ k ∈ (((c.get k).snd).put knew vnew).keyList :=
  ⟨LRU.get_put_self cR kR vR (by omega),
   LRU.get_put_put cR kR kR' vR vnR hcapR hneR,
   LRU.put_full c knew vnew (by omega) hfull hfresh,
   LRU.get_then_put_keeps c k knew v vnew hcap hget hne2⟩

theorem c4_lru_bounded_store_witness :
    2 ≤ (⟨2, [("b", (2 : Nat)), ("a", 1)]⟩ : LRU Nat).capacity
    ∧ (⟨2, [("b", (2 : Nat)), ("a", 1)]⟩ : LRU Nat).entries.length
        = (⟨2, [("b", (2 : Nat)), ("a", 1)]⟩ : LRU Nat).capacity
    ∧ "c" ∉ (⟨2, [("b", (2 : Nat)), ("a", 1)]⟩ : LRU Nat).keyList
    ∧ ((⟨2, [("b", (2 : Nat)), ("a", 1)]⟩ : LRU Nat).get "a").fst = some 1
    ∧ ("c" : String) ≠ "a"
    ∧ 2 ≤ (LRU.empty Nat 2).capacity
    ∧ ("y" : String) ≠ "x"
    ∧ ((((LRU.empty Nat 2).put "x" 7).get "x").fst = some 7
      ∧ ((((LRU.empty Nat 2).put "x" 7).put "y" 8).get "x").fst = some 7
      ∧ ((⟨2, [("b", (2 : Nat)), ("a", 1)]⟩ : LRU Nat).put "c" 3).entries
          = ("c", 3) :: [("b", (2 : Nat)), ("a", 1)].dropLast
      ∧ "a" ∈ ((((⟨2, [("b", (2 : Nat)), ("a", 1)]⟩ : LRU Nat).get "a").snd).put "c" 3).keyList) :=
  ⟨by decide, by decide, by decide, by decide, by decide, by decide, by decide,
    c4_lru_bounded_store Nat ⟨2, [("b", 2), ("a", 1)]⟩ (LRU.empty Nat 2) "a" "c" "x" "y" 1 3 7 8
      (by decide) (by decide) (by decide) (by decide) (by decide) (by decide) (by decide)⟩

/-- C5: when a dispatch is issued twice back-to-back and the first
call's response is successful (no `error` field) and the cache can hold
it, the second call performs no POST and returns exactly the value the
first call returned. -/
theorem c5_second_dispatch_hits_cache (server : Params → ApiResponse)
    (cache : LRU ApiResponse) (apiKey apiMethod : String) (kwargs : Params)
    (hcap : 1 ≤ cache.capacity)
    (hok : (server (syncSentBody apiKey apiMethod kwargs)).error = Option.none) :
    (syncDispatch server (syncDispatch server cache apiKey apiMethod kwargs).cache
        apiKey apiMethod kwargs).sent = false
    ∧ (syncDispatch server (syncDispatch server cache apiKey apiMethod kwargs).cache
        apiKey apiMethod kwargs).response
      = (syncDispatch server cache apiKey apiMethod kwargs).response := by
  set ck := _get_cache_key (requestBody apiKey apiMethod kwargs) with hckdef
  rcases h1 : cache.get ck with ⟨o1, c1⟩
  cases o1 with
  | some cached =>
    have hd1 : syncDispatch server cache apiKey apiMethod kwargs = ⟨cached, c1, false⟩ := by
      simp only [syncDispatch, ← hckdef]
      rw [h1]
    have hfst : (cache.get ck).fst = some cached := by rw [h1]
    have hc1get : (c1.get ck).fst = some cached := by
      have h' := LRU.get_get hfst
      rw [h1] at h'
      simpa using h'
    rcases h2 : c1.get ck with ⟨o2, c2⟩
    have ho2 : o2 = some cached := by
      rw [h2] at hc1get
      exact hc1get
    subst ho2
    have hd2 : syncDispatch server c1 apiKey apiMethod kwargs = ⟨cached, c2, false⟩ := by
      simp only [syncDispatch, ← hckdef]
      rw [h2]
    rw [hd1]
    constructor
    · show (syncDispatch server c1 apiKey apiMethod kwargs).sent = false
      rw [hd2]
    · show (syncDispatch server c1 apiKey apiMethod kwargs).response = cached
      rw [hd2]
  | none =>
    have hd1 : syncDispatch server cache apiKey apiMethod kwargs
        = ⟨server (syncSentBody apiKey apiMethod kwargs),
           c1.put ck (server (syncSentBody apiKey apiMethod kwargs)), true⟩ := by
      simp only [syncDispatch, ← hckdef]
      rw [h1, hok]
    have hcap1 : 1 ≤ c1.capacity := by
      have h' : (cache.get ck).snd = c1 := by rw [h1]
      rw [← h', LRU.get_snd_capacity]
      exact hcap
    have hput : ((c1.put ck (server (syncSentBody apiKey apiMethod kwargs))).get ck).fst
        = some (server (syncSentBody apiKey apiMethod kwargs)) :=
      LRU.get_put_self _ _ _ hcap1
    rcases h2 : (c1.put ck (server (syncSentBody apiKey apiMethod kwargs))).get ck
      with ⟨o2, c2⟩
    have ho2 : o2 = some (server (syncSentBody apiKey apiMethod kwargs)) := by
      rw [h2] at hput
      exact hput
    subst ho2
    have hd2 : syncDispatch server
          (c1.put ck (server (syncSentBody apiKey apiMethod kwargs)))
          apiKey apiMethod kwargs
        = ⟨server (syncSentBody apiKey apiMethod kwargs), c2, false⟩ := by
      simp only [syncDispatch, ← hckdef]
      rw [h2]
    rw [hd1]
    constructor
    · show (syncDispatch server
          (c1.put ck (server (syncSentBody apiKey apiMethod kwargs)))
          apiKey apiMethod kwargs).sent = false
      rw [hd2]
    · show (syncDispatch server
          (c1.put ck (server (syncSentBody apiKey apiMethod kwargs)))
          apiKey apiMethod kwargs).response
        = server (syncSentBody apiKey apiMethod kwargs)
      rw [hd2]

theorem c5_second_dispatch_hits_cache_witness :
    1 ≤ (LRU.empty ApiResponse 100).capacity
    ∧ (ApiResponse.mk Option.none "payload").error = Option.none
    ∧ ((syncDispatch (fun _ => ApiResponse.mk Option.none "payload")
          (syncDispatch (fun _ => ApiResponse.mk Option.none "payload")
            (LRU.empty ApiResponse 100) "key" "security_reference"
            [("security_id", PyVal.str "USQ98418AH10"),
              ("as_of_date", PyVal.str "2020-09-14")]).cache
          "key" "security_reference"
          [("security_id", PyVal.str "USQ98418AH10"),
            ("as_of_date", PyVal.str "2020-09-14")]).sent = false
      ∧ (syncDispatch (fun _ => ApiResponse.mk Option.none "payload")
          (syncDispatch (fun _ => ApiResponse.mk Option.none "payload")
            (LRU.empty ApiResponse 100) "key" "security_reference"
            [("security_id", PyVal.str "USQ98418AH10"),
              ("as_of_date", PyVal.str "2020-09-14")]).cache
          "key" "security_reference"
          [("security_id", PyVal.str "USQ98418AH10"),
            ("as_of_date", PyVal.str "2020-09-14")]).response
        = (syncDispatch (fun _ => ApiResponse.mk Option.none "payload")
            (LRU.empty ApiResponse 100) "key" "security_reference"
            [("security_id", PyVal.str "USQ98418AH10"),
              ("as_of_date", PyVal.str "2020-09-14")]).response) :=
  ⟨by decide, rfl,
    c5_second_dispatch_hits_cache (fun _ => ApiResponse.mk Option.none "payload")
      (LRU.empty ApiResponse 100) "key" "security_reference"
      [("security_id", PyVal.str "USQ98418AH10"), ("as_of_date", PyVal.str "2020-09-14")]
      (by decide) rfl⟩

/-- C6 counterexample: the sync client does not cache an error payload —
after a dispatch whose response carries an `error` field the cache is
unchanged, and an immediately repeated identical dispatch POSTs again,
so the error payload is not treated as the resolved value for its
fingerprint. -/
theorem c6_counterexample :
    (syncDispatch (fun _ => ApiResponse.mk (some "bad security id") "")
        (LRU.empty ApiResponse 100) "key" "security_reference"
        [("security_id", PyVal.str "ZZZ")]).cache
      = LRU.empty ApiResponse 100
    ∧ (syncDispatch (fun _ => ApiResponse.mk (some "bad security id") "")
        (syncDispatch (fun _ => ApiResponse.mk (some "bad security id") "")
          (LRU.empty ApiResponse 100) "key" "security_reference"
          [("security_id", PyVal.str "ZZZ")]).cache
        "key" "security_reference" [("security_id", PyVal.str "ZZZ")]).sent = true := by
  exact ⟨by decide, by decide⟩

/-- C6 (amended): every variant surfaces a server error payload as a
returned value (never thrown) and does not retry; but only the socket
client's `on_message` writes the error payload into the response cache
(and only for list or progress-free-dict payloads), while the sync HTTP
client returns the error payload without caching it, leaving the cache
unchanged. -/
theorem c6_error_handling (server : Params → ApiResponse) (cache : LRU ApiResponse)
    (apiKey apiMethod : String) (kwargs : Params) (e : String)
    (hmiss : (cache.get (_get_cache_key (requestBody apiKey apiMethod kwargs))).fst
      = Option.none)
    (herr : (server (syncSentBody apiKey apiMethod kwargs)).error = some e)
    (flag : Bool) (jcache : LRU JVal) (f : List (String × JVal)) (k : String)
    (hprog : jget f "progress" = Option.none)
    (hjmiss : (jcache.get k).fst = Option.none)
    (hjcap : 1 ≤ jcache.capacity) :
    ((syncDispatch server cache apiKey apiMethod kwargs).response
        = server (syncSentBody apiKey apiMethod kwargs)
      ∧ (syncDispatch server cache apiKey apiMethod kwargs).cache = cache
      ∧ (syncDispatch server cache apiKey apiMethod kwargs).sent = true)
    ∧ (((onMessage ⟨flag, jcache⟩
          [("error", JVal.jdict f),
            ("cache_keys", JVal.jlist [JVal.jstr k])]).cache.get k).fst
        = some (JVal.jdict f)) := by
  constructor
  · have hpair : cache.get (_get_cache_key (requestBody apiKey apiMethod kwargs))
        = (Option.none, cache) := LRU.get_fst_none hmiss
    have hd : syncDispatch server cache apiKey apiMethod kwargs
        = ⟨server (syncSentBody apiKey apiMethod kwargs), cache, true⟩ := by
      simp only [syncDispatch, hpair, herr]
    rw [hd]
    exact ⟨rfl, rfl, rfl⟩
  · have hgk : jcache.get k = (Option.none, jcache) := LRU.get_fst_none hjmiss
    have hws : writeScalarKeys (JVal.jdict f) jcache [k] = jcache.put k (JVal.jdict f) := by
      unfold writeScalarKeys
      rw [hgk]
      rfl
    have hred : onMessage ⟨flag, jcache⟩
          [("error", JVal.jdict f), ("cache_keys", JVal.jlist [JVal.jstr k])]
        = if (match jget f "progress" with
            | Option.none => true
            | some JVal.jnull => true
            | some _ => false) = true
          then ⟨flag, writeScalarKeys (JVal.jdict f) jcache [k]⟩
          else ⟨flag, jcache⟩ := rfl
    rw [hred, hprog]
    show ((writeScalarKeys (JVal.jdict f) jcache [k]).get k).fst = some (JVal.jdict f)
    rw [hws]
    exact LRU.get_put_self _ _ _ hjcap

theorem c6_error_handling_witness :
    ((LRU.empty ApiResponse 100).get
        (_get_cache_key (requestBody "key" "security_reference"
          [("security_id", PyVal.str "ZZZ")]))).fst = Option.none
    ∧ (ApiResponse.mk (some "bad security id") "").error = some "bad security id"
    ∧ jget [("note", JVal.jstr "boom")] "progress" = Option.none
    ∧ ((LRU.empty JVal 100).get "ck1").fst = Option.none
    ∧ 1 ≤ (LRU.empty JVal 100).capacity
    ∧ (((syncDispatch (fun _ => ApiResponse.mk (some "bad security id") "")
          (LRU.empty ApiResponse 100) "key" "security_reference"
          [("security_id", PyVal.str "ZZZ")]).response
            = (fun _ : Params => ApiResponse.mk (some "bad security id") "")
              (syncSentBody "key" "security_reference" [("security_id", PyVal.str "ZZZ")])
        ∧ (syncDispatch (fun _ => ApiResponse.mk (some "bad security id") "")
            (LRU.empty ApiResponse 100) "key" "security_reference"
            [("security_id", PyVal.str "ZZZ")]).cache = LRU.empty ApiResponse 100
        ∧ (syncDispatch (fun _ => ApiResponse.mk (some "bad security id") "")
            (LRU.empty ApiResponse 100) "key" "security_reference"
            [("security_id", PyVal.str "ZZZ")]).sent = true)
      ∧ (((onMessage ⟨false, LRU.empty JVal 100⟩
            [("error", JVal.jdict [("note", JVal.jstr "boom")]),
              ("cache_keys", JVal.jlist [JVal.jstr "ck1"])]).cache.get "ck1").fst
          = some (JVal.jdict [("note", JVal.jstr "boom")]))) :=
  ⟨rfl, rfl, rfl, rfl, by decide,
    c6_error_handling (fun _ => ApiResponse.mk (some "bad security id") "")
      (LRU.empty ApiResponse 100) "key" "security_reference"
      [("security_id", PyVal.str "ZZZ")] "bad security id" rfl rfl
      false (LRU.empty JVal 100) [("note", JVal.jstr "boom")] "ck1"
      rfl rfl (by decide)⟩

theorem authLoopFinal_never {auth : Nat → Bool} (hnever : ∀ t, auth t = false) :
    ∀ i t, authLoopFinal auth i t = false := by
  intro i
  induction i with
  | zero =>
    intro t
    exact hnever (t + 1)
  | succ n ih =>
    intro t
    show (if auth t = true then auth (t + 1) else authLoopFinal auth n (t + 1)) = false
    rw [hnever t, if_neg Bool.false_ne_true]
    exact ih (t + 1)

theorem authLoopFinal_congr {auth1 auth2 : Nat → Bool} :
    ∀ i t, (∀ s, s ≤ t + i + 1 → auth1 s = auth2 s) →
      authLoopFinal auth1 i t = authLoopFinal auth2 i t := by
  intro i
  induction i with
  | zero =>
    intro t h
    exact h (t + 1) (by omega)
  | succ n ih =>
    intro t h
    show (if auth1 t = true then auth1 (t + 1) else authLoopFinal auth1 n (t + 1))
      = (if auth2 t = true then auth2 (t + 1) else authLoopFinal auth2 n (t + 1))
    rw [h t (by omega)]
    by_cases hc : auth2 t = true
    · rw [if_pos hc, if_pos hc, h (t + 1) (by omega)]
    · rw [if_neg hc, if_neg hc]
      exact ih (t + 1) (fun s hs => h s (by omega))

/-- C7: the authentication gate of the socket dispatch is a bounded
poll: its outcome depends only on the first 5003 reads of the
`is_authenticated` flag (5000 one-millisecond sleeps plus the enclosing
checks, i.e. on the order of seconds), and when the flag never becomes
set it returns the `Client not authenticated` error instead of hanging
forever. -/
theorem c7_auth_wait_bounded (auth auth1 auth2 : Nat → Bool)
    (hnever : ∀ t, auth t = false)
    (hagree : ∀ s, s ≤ 5002 → auth1 s = auth2 s) :
    socketAwaitAuth auth = Except.error "Client not authenticated"
    ∧ socketAwaitAuth auth1 = socketAwaitAuth auth2 := by
  constructor
  · unfold socketAwaitAuth
    rw [hnever 0, if_neg Bool.false_ne_true,
      authLoopFinal_never hnever 5000 1, if_neg Bool.false_ne_true]
  · unfold socketAwaitAuth
    rw [hagree 0 (by omega), authLoopFinal_congr 5000 1 (fun s hs => hagree s (by omega))]

theorem c7_auth_wait_bounded_witness :
    socketAwaitAuth (fun _ => false) = Except.error "Client not authenticated"
    ∧ socketAwaitAuth (fun _ => false) = socketAwaitAuth (fun t => decide (5003 ≤ t)) :=
  c7_auth_wait_bounded (fun _ => false) (fun _ => false) (fun t => decide (5003 ≤ t))
    (fun _ => rfl)
    (fun s hs => by
      have h : ¬ 5003 ≤ s := by omega
      exact (decide_eq_false h).symm)

/-- C8 counterexample: with blocking off, a socket dispatch whose
fingerprint is already cached returns the cached response value, not the
fingerprint handle. -/
theorem c8_counterexample :
    (socketDispatch
        ((LRU.empty JVal 100).put
          (_get_cache_key (socketPayload "security_reference"
            [("security_id", PyVal.str "USQ98418AH10")]))
          (JVal.jstr "resp"))
        "security_reference" [("security_id", PyVal.str "USQ98418AH10")] false).result
      = SocketResult.cachedValue (JVal.jstr "resp")
    ∧ (socketDispatch
        ((LRU.empty JVal 100).put
          (_get_cache_key (socketPayload "security_reference"
            [("security_id", PyVal.str "USQ98418AH10")]))
          (JVal.jstr "resp"))
        "security_reference" [("security_id", PyVal.str "USQ98418AH10")] false).result
      ≠ SocketResult.handle [_get_cache_key (socketPayload "security_reference"
          [("security_id", PyVal.str "USQ98418AH10")])] := by
  constructor
  · rfl
  · intro h
    exact SocketResult.noConfusion h

/-- C8 (amended): on the socket client with blocking disabled and no
callback, a cache-miss call sends the frame and returns immediately with
the singleton `cache_keys` list holding the request's fingerprint as a
handle later resolvable against the cache; a cache-hit call instead
returns the cached response value directly and sends nothing. -/
theorem c8_nonblocking_dispatch (cache1 cache2 : LRU JVal) (apiMethod : String)
    (kwargs : Params) (v : JVal)
    (hmiss : (cache1.get (_get_cache_key (socketPayload apiMethod kwargs))).fst
      = Option.none)
    (hhit : (cache2.get (_get_cache_key (socketPayload apiMethod kwargs))).fst = some v) :
    ((socketDispatch cache1 apiMethod kwargs false).result
        = SocketResult.handle [_get_cache_key (socketPayload apiMethod kwargs)]
      ∧ (socketDispatch cache1 apiMethod kwargs false).sent
        = some ⟨socketPayload apiMethod kwargs,
            [_get_cache_key (socketPayload apiMethod kwargs)]⟩)
    ∧ ((socketDispatch cache2 apiMethod kwargs false).result = SocketResult.cachedValue v
      ∧ (socketDispatch cache2 apiMethod kwargs false).sent = Option.none) := by
  constructor
  · have hpair : cache1.get (_get_cache_key (socketPayload apiMethod kwargs))
        = (Option.none, cache1) := LRU.get_fst_none hmiss
    have hd : socketDispatch cache1 apiMethod kwargs false
        = ⟨SocketResult.handle [_get_cache_key (socketPayload apiMethod kwargs)],
           some ⟨socketPayload apiMethod kwargs,
             [_get_cache_key (socketPayload apiMethod kwargs)]⟩, cache1⟩ := by
      simp only [socketDispatch, hpair]
      rfl
    rw [hd]
    exact ⟨rfl, rfl⟩
  · rcases h2 : cache2.get (_get_cache_key (socketPayload apiMethod kwargs)) with ⟨o2, c2⟩
    have ho2 : o2 = some v := by
      rw [h2] at hhit
      exact hhit
    subst ho2
    have hd : socketDispatch cache2 apiMethod kwargs false
        = ⟨SocketResult.cachedValue v, Option.none, c2⟩ := by
      simp only [socketDispatch, h2]
    rw [hd]
    exact ⟨rfl, rfl⟩

theorem c8_nonblocking_dispatch_witness :
    ((LRU.empty JVal 100).get (_get_cache_key (socketPayload "security_reference"
        [("security_id", PyVal.str "USQ98418AH10")]))).fst = Option.none
    ∧ (((LRU.empty JVal 100).put (_get_cache_key (socketPayload "security_reference"
          [("security_id", PyVal.str "USQ98418AH10")])) (JVal.jstr "resp")).get
        (_get_cache_key (socketPayload "security_reference"
          [("security_id", PyVal.str "USQ98418AH10")]))).fst = some (JVal.jstr "resp")
    ∧ (((socketDispatch (LRU.empty JVal 100) "security_reference"
          [("security_id", PyVal.str "USQ98418AH10")] false).result
            = SocketResult.handle [_get_cache_key (socketPayload "security_reference"
              [("security_id", PyVal.str "USQ98418AH10")])]
        ∧ (socketDispatch (LRU.empty JVal 100) "security_reference"
            [("security_id", PyVal.str "USQ98418AH10")] false).sent
          = some ⟨socketPayload "security_reference"
              [("security_id", PyVal.str "USQ98418AH10")],
              [_get_cache_key (socketPayload "security_reference"
                [("security_id", PyVal.str "USQ98418AH10")])]⟩)
      ∧ ((socketDispatch ((LRU.empty JVal 100).put
            (_get_cache_key (socketPayload "security_reference"
              [("security_id", PyVal.str "USQ98418AH10")])) (JVal.jstr "resp"))
            "security_reference" [("security_id", PyVal.str "USQ98418AH10")] false).result
          = SocketResult.cachedValue (JVal.jstr "resp")
        ∧ (socketDispatch ((LRU.empty JVal 100).put
            (_get_cache_key (socketPayload "security_reference"
              [("security_id", PyVal.str "USQ98418AH10")])) (JVal.jstr "resp"))
            "security_reference" [("security_id", PyVal.str "USQ98418AH10")] false).sent
          = Option.none)) :=
  ⟨rfl, rfl,
    c8_nonblocking_dispatch (LRU.empty JVal 100)
      ((LRU.empty JVal 100).put (_get_cache_key (socketPayload "security_reference"
        [("security_id", PyVal.str "USQ98418AH10")])) (JVal.jstr "resp"))
      "security_reference" [("security_id", PyVal.str "USQ98418AH10")]
      (JVal.jstr "resp") rfl rfl⟩

example :
    _get_cache_key
      [("finx_api_key", .str "k"), ("api_method", .str "security_reference"),
       ("input_file", .none), ("output_file", .none), ("security_id", .str "X")] =
      "Xsecurity_referencefinx_api_key:k,input_file:None,output_file:None" := by decide

example :
    getCacheKeyV1 [("b", .str "2"), ("a", .str "1")] = "a:1,b:2" := by decide

end FinXSDK
